import Mathlib

/-!
# Event–News matching pipeline: a shallow embedding

This file embeds the event–news matching pipeline of `src/pipeline/matching.py`
(together with the data model of `src/polymarket/client.py` and
`src/newsapi/client.py`) into Lean and proves the specified properties of
`extract_key_terms`, `build_news_query`, `get_time_window`, `score_article`
and `match_news_to_event`.

Modelling conventions:
* Timestamps are `Int` values (seconds on the naive timeline used by the
  Python code after `tzinfo` stripping); one day is `86400` seconds.
  `timedelta.days` is floor division by `86400`, i.e. `Int.fdiv`.
* The wall clock `datetime.now()` is an explicit `now : Int` parameter.
* Scores are exact: every increment in the source is a small integer, on which
  Python float arithmetic is exact, so `score : Int`; the `min_score`
  threshold (a Python float) is modelled as a rational.
* The News API call inside `match_news_to_event` is modelled by an explicit
  `Except String (List Article)` argument: `.error` is a raised exception,
  `.ok` the parsed article list.
* Python `str.lower`, `\w`, `\s` and `[A-Z]`/`[a-z]` are modelled at ASCII
  granularity (all inputs exercised here are ASCII).
-/

namespace NewsMatch

/-- ASCII word character, Python's `\w` (`[A-Za-z0-9_]`). -/
def isWordChar (c : Char) : Bool := c.isAlphanum || c = '_'

/-- Python whitespace for `str.split()` / regex `\s`: space, `\t`, `\n`, `\v`, `\f`, `\r`. -/
def isPySpace (c : Char) : Bool := c = ' ' || (9 ≤ c.val && c.val ≤ 13)

/-- Regex `[A-Z]`. -/
def isUpperAZ (c : Char) : Bool := 'A' ≤ c && c ≤ 'Z'

/-- Regex `[a-z]`. -/
def isLowerAZ (c : Char) : Bool := 'a' ≤ c && c ≤ 'z'

/-- Python `str.lower()` (ASCII): lower-case every character. Identical to
`String.toLower`, but defined by structural recursion over the character
list so that concrete instances reduce definitionally. -/
def strLower (s : String) : String := ⟨s.data.map Char.toLower⟩

/-- Auxiliary for `joinSpace`. -/
def joinSpaceData : List (List Char) → List Char
  | [] => []
  | [x] => x
  | x :: y :: xs => x ++ ' ' :: joinSpaceData (y :: xs)

/-- Python `' '.join(l)` (= `String.intercalate " "`, structurally). -/
def joinSpace (l : List String) : String := ⟨joinSpaceData (l.map (fun s => s.data))⟩

/-- Auxiliary for `splitWs`: accumulates the current word (reversed). -/
def splitWsAux : List Char → List Char → List (List Char)
  | [], acc => if acc.isEmpty then [] else [acc.reverse]
  | c :: cs, acc =>
    if isPySpace c then
      if acc.isEmpty then splitWsAux cs [] else acc.reverse :: splitWsAux cs []
    else splitWsAux cs (c :: acc)

/-- Python `str.split()` with no separator: split on whitespace runs, dropping
empty pieces. -/
def splitWs (cs : List Char) : List (List Char) := splitWsAux cs []

/-- `str.split()` on a `String`. -/
def pySplit (s : String) : List String := (splitWs s.data).map (fun l => ⟨l⟩)

/-- Python substring test `needle in hay` (`True` for the empty needle). -/
def listContains (hay needle : List Char) : Bool :=
  match hay with
  | [] => needle.isEmpty
  | _ :: t => needle.isPrefixOf hay || listContains t needle

/-- Python `s.strip('"')`: remove all leading and trailing `"` characters. -/
def stripQuotes (s : String) : String :=
  ⟨((s.data.dropWhile (· = '"')).reverse.dropWhile (· = '"')).reverse⟩

/-- `STOP_WORDS` of `src/pipeline/matching.py` (a Python set literal; the
duplicate `'no'` entry collapses). -/
def STOP_WORDS : List String :=
  ["the", "a", "an", "in", "on", "at", "to", "for", "of", "and", "or", "is",
   "are", "was", "were", "be", "been", "being", "will", "would", "could",
   "should", "may", "might", "can", "this", "that", "these", "those", "it",
   "its", "by", "from", "with", "as", "but", "if", "then", "than", "so",
   "what", "which", "who", "whom", "when", "where", "why", "how", "all",
   "each", "every", "both", "few", "more", "most", "other", "some", "such",
   "no", "not", "only", "own", "same", "too", "very", "just", "before",
   "after", "during", "while", "market", "resolve", "yes"]

/-- `GENERIC_TAGS` of `src/pipeline/matching.py`. -/
def GENERIC_TAGS : List String :=
  ["business", "politics", "news", "world", "us", "usa", "america",
   "global", "international", "economy", "economic", "predictions",
   "2024", "2025", "2026"]

/-- The `quality_sources` set inside `score_article`. -/
def QUALITY_SOURCES : List String :=
  ["reuters", "bloomberg", "associated press", "bbc", "cnn",
   "wall street journal", "new york times", "washington post",
   "financial times", "the economist", "politico", "axios"]

/-- `Article` of `src/newsapi/client.py` (timestamps as naive `Int` seconds). -/
structure Article where
  source_id : Option String := none
  source_name : String := ""
  author : Option String := none
  title : String := ""
  description : Option String := none
  url : String := ""
  image_url : Option String := none
  published_at : Option Int := none
  content : Option String := none
deriving DecidableEq

/-- `Event` of `src/polymarket/client.py`. The `volume` and `markets` fields
are never read by the matching pipeline and are omitted. -/
structure Event where
  id : String := ""
  slug : String := ""
  title : String := ""
  description : String := ""
  start_date : Option Int := none
  end_date : Option Int := none
  category : Option String := none
  tags : List String := []
  active : Bool := false
  closed : Bool := false
deriving DecidableEq

/-- `ScoredArticle` of `src/pipeline/matching.py`. -/
structure ScoredArticle where
  article : Article
  score : Int
  match_reasons : List String
deriving DecidableEq

/-- `extract_key_terms`: lower-case, replace non-word non-space characters by
a space, split on whitespace, drop stop words and words of length ≤ 2. -/
def extract_key_terms (text : String) : List String :=
  let lowered := strLower text
  let cleaned := lowered.data.map (fun c => if isWordChar c || isPySpace c then c else ' ')
  let words : List String := (splitWs cleaned).map (fun l => ⟨l⟩)
  words.filter (fun w => w ∉ STOP_WORDS ∧ 2 < w.length)

/-!
## Named-entity detection

Model of `re.findall(r'\b[A-Z][a-z]+(?:\s+[A-Z][a-z]+)*\b', title)`:
a match is a capitalized word (`[A-Z][a-z]+`) followed by greedily as many
`\s+[A-Z][a-z]+` groups as possible; `findall` scans left to right, skipping
one character on failure and resuming after each (non-overlapping) match.
Both word boundaries force backtracking only in two benign ways, which the
model reproduces exactly:
* a shortened `[a-z]+` run is always followed by a lower-case letter, which
  fails both `\b` and `\s`, so the greedy (maximal) run is the only candidate;
* if the character after the full greedy match is a word character, the final
  `\b` fails and the engine drops the last `\s+[A-Z][a-z]+` group (after which
  the match ends before a whitespace character, so `\b` holds); with no group
  left the match attempt fails.
-/

/-- One `[A-Z][a-z]+` word: the head must be `[A-Z]`, followed by a nonempty
maximal run of `[a-z]`. Returns the word and the rest. -/
def matchWord : List Char → Option (List Char × List Char)
  | [] => none
  | c :: cs =>
    if isUpperAZ c then
      let low := cs.takeWhile isLowerAZ
      if low.isEmpty then none else some (c :: low, cs.dropWhile isLowerAZ)
    else none

/-- Greedy `(?:\s+[A-Z][a-z]+)*`: returns the list of matched groups (each
`\s+` run concatenated with its word) and the rest. The fuel argument only
ensures termination; every group consumes at least two characters, so any
fuel ≥ the input length is enough. -/
def matchGroups : Nat → List Char → List (List Char) × List Char
  | 0, l => ([], l)
  | fuel + 1, l =>
    let sp := l.takeWhile isPySpace
    let rest1 := l.dropWhile isPySpace
    if sp.isEmpty then ([], l)
    else
      match matchWord rest1 with
      | none => ([], l)
      | some (w, rest2) =>
        let (gs, rest3) := matchGroups fuel rest2
        ((sp ++ w) :: gs, rest3)

/-- The trailing `\b`: the next character must be absent or a non-word
character (every match ends in `[a-z]`, a word character). -/
def boundaryAfter : List Char → Bool
  | [] => true
  | c :: _ => !isWordChar c

/-- One attempt to match the full entity regex at the start of `l` (the
leading `\b` is the caller's responsibility). Returns the matched text and
the rest of the input. -/
def matchEntity (l : List Char) : Option (List Char × List Char) :=
  match matchWord l with
  | none => none
  | some (w, rest) =>
    let (gs, rest2) := matchGroups rest.length rest
    if boundaryAfter rest2 then some (w ++ gs.flatten, rest2)
    else
      match gs.getLast? with
      | none => none
      | some g => some (w ++ gs.dropLast.flatten, g ++ rest2)

/-- `findall` scan. `prev` records whether the previous character was a word
character (the leading `\b` holds iff it was not). Fuel ≥ input length + 1 is
enough: each step consumes at least one character. -/
def scanEntities : Nat → Bool → List Char → List (List Char)
  | 0, _, _ => []
  | _ + 1, _, [] => []
  | fuel + 1, prev, c :: cs =>
    if prev then scanEntities fuel (isWordChar c) cs
    else
      match matchEntity (c :: cs) with
      | some (m, rest) => m :: scanEntities fuel true rest
      | none => scanEntities fuel (isWordChar c) cs

/-- `re.findall(r'\b[A-Z][a-z]+(?:\s+[A-Z][a-z]+)*\b', s)`. -/
def findEntities (s : String) : List String :=
  (scanEntities (s.data.length + 1) false s.data).map (fun l => ⟨l⟩)

/-!
## Query construction (`build_news_query`)
-/

/-- `f'"{entity}"'`. -/
def quoteStr (s : String) : String := "\"" ++ s ++ "\""

/-- The tag loop of `build_news_query`: append each tag whose lower-cased form
is neither a generic tag nor (case-insensitively) already collected; break
once the term count reaches `max_terms` (checked after appending). -/
def tagLoop (max_terms : Nat) : List String → List String → List String
  | [], terms => terms
  | tag :: rest, terms =>
    if strLower tag ∉ GENERIC_TAGS ∧ strLower tag ∉ terms.map (fun t => strLower t) then
      if max_terms ≤ (terms ++ [tag]).length then terms ++ [tag]
      else tagLoop max_terms rest (terms ++ [tag])
    else tagLoop max_terms rest terms

/-- The named-entity loop of `build_news_query`: insert each detected entity
whose lower-cased form is not a stop word and which is not already
(case-sensitively) among the terms at the front, wrapped in quote markers;
break once the term count reaches `max_terms` (checked after inserting). -/
def entityLoop (max_terms : Nat) : List String → List String → List String
  | [], terms => terms
  | e :: rest, terms =>
    if strLower e ∉ STOP_WORDS ∧ e ∉ terms then
      if max_terms ≤ (quoteStr e :: terms).length then quoteStr e :: terms
      else entityLoop max_terms rest (quoteStr e :: terms)
    else entityLoop max_terms rest terms

/-- The term list assembled by `build_news_query`, truncated to `max_terms`. -/
def build_news_query_terms (event : Event) (max_terms : Nat) : List String :=
  let terms := (extract_key_terms event.title).take 5
  let terms := tagLoop max_terms event.tags terms
  let terms := entityLoop max_terms (findEntities event.title) terms
  terms.take max_terms

/-- `build_news_query`: the first `max_terms` terms joined by single spaces. -/
def build_news_query (event : Event) (max_terms : Nat := 8) : String :=
  joinSpace (build_news_query_terms event max_terms)

/-!
## Time window (`get_time_window`)
-/

/-- `get_time_window` (timestamps naive, in seconds; `86400` seconds = 1 day).
Returns `(from_date, to_date)`. -/
def get_time_window (now : Int) (event : Event)
    (default_days_back : Int := 7) (buffer_days : Int := 2) : Int × Int :=
  let to_date :=
    match event.end_date with
    | some e => if now < e then min e (now + 86400) else now
    | none => now
  let from_date :=
    match event.start_date with
    | some s => max (s - buffer_days * 86400) (now - 30 * 86400)
    | none => now - default_days_back * 86400
  (from_date, to_date)

/-!
## Relevance scoring (`score_article`)

The Python function accumulates `score` and `reasons` through five
independent rules in a fixed order; each rule is embedded as a function
returning its score increment and the reason tags it appends.
-/

/-- Rule 1/2 helper: the number of query terms (quote markers stripped,
lower-cased) occurring as substrings of the given lower-cased text. -/
def matchCount (query_terms : List String) (text : String) : Nat :=
  (query_terms.filter (fun t => listContains text.data (strLower (stripQuotes t)).data)).length

/-- Rule 1: title matches, weight 3, single tag `title_match:<count>`. -/
def titleRule (query_terms : List String) (article_title : String) : Int × List String :=
  let m := matchCount query_terms article_title
  if 0 < m then ((m : Int) * 3, ["title_match:" ++ toString m]) else (0, [])

/-- Rule 2: description matches, weight 1, single tag `desc_match:<count>`. -/
def descRule (query_terms : List String) (article_desc : String) : Int × List String :=
  let m := matchCount query_terms article_desc
  if 0 < m then ((m : Int), ["desc_match:" ++ toString m]) else (0, [])

/-- Rule 3: named entities of the event title found in the lower-cased
article title, +5 and one `entity:<entity>` tag per matching entity. -/
def entityRule (event_title article_title : String) : Int × List String :=
  let hits := (findEntities event_title).filter
    (fun e => listContains article_title.data (strLower e).data)
  (5 * (hits.length : Int), hits.map (fun e => "entity:" ++ e))

/-- Rule 4: recency bonus. `(datetime.now() - pub_date).days` is floor
division of the age in seconds by 86400. -/
def recencyRule (now : Int) (published_at : Option Int) : Int × List String :=
  match published_at with
  | none => (0, [])
  | some pub =>
    let days_old := (now - pub).fdiv 86400
    if days_old ≤ 1 then (2, ["very_recent"])
    else if days_old ≤ 3 then (1, ["recent"])
    else (0, [])

/-- Rule 5: source quality bonus. -/
def qualityRule (source_name : String) : Int × List String :=
  if QUALITY_SOURCES.any (fun qs => listContains (strLower source_name).data qs.data)
  then (1, ["quality_source"]) else (0, [])

/-- `score_article`: the five rules applied in source order to the
lower-cased article title/description, the event title and the clock. -/
def score_article (now : Int) (article : Article) (event : Event)
    (query_terms : List String) : ScoredArticle :=
  let article_title := strLower article.title
  let article_desc := strLower (article.description.getD "")
  let r1 := titleRule query_terms article_title
  let r2 := descRule query_terms article_desc
  let r3 := entityRule event.title article_title
  let r4 := recencyRule now article.published_at
  let r5 := qualityRule article.source_name
  { article := article
    score := r1.1 + r2.1 + r3.1 + r4.1 + r5.1
    match_reasons := r1.2 ++ r2.2 ++ r3.2 ++ r4.2 ++ r5.2 }

/-!
## Stable sort

`scored.sort(key=lambda x: x.score, reverse=True)` is Python's stable sort,
ordering by score descending with ties kept in pre-sort order. A stable sort
is extensionally unique, so it is embedded as a stable insertion sort: an
element is inserted in front of the first element whose score is not larger
(hence after all strictly larger scores and before all later equal scores).
`sortDesc_eq_mergeSort` below confirms it agrees with the standard stable
`List.mergeSort` under the descending comparison.
-/

/-- Insert `x` in front of the first element whose score is ≤ `x.score`. -/
def insertDesc (x : ScoredArticle) : List ScoredArticle → List ScoredArticle
  | [] => [x]
  | y :: ys => if x.score < y.score then y :: insertDesc x ys else x :: y :: ys

/-- Stable sort by score descending. -/
def sortDesc : List ScoredArticle → List ScoredArticle
  | [] => []
  | x :: xs => insertDesc x (sortDesc xs)

/-!
## Orchestrator (`match_news_to_event`)
-/

/-- `match_news_to_event`. The News API call (`client.search_everything`,
performed with the built query, the time window, relevancy sort and page
size 20) is modelled by the `fetched` argument: `.error` is a raised
exception (caught, logged and turned into `[]`), `.ok` the article list. -/
def match_news_to_event (now : Int) (event : Event)
    (fetched : Except String (List Article))
    (max_articles : Nat := 5) (min_score : ℚ := 2) : List ScoredArticle :=
  let query := build_news_query event
  let query_terms := pySplit query
  match fetched with
  | .error _ => []
  | .ok articles =>
    let scored := articles.map (fun a => score_article now a event query_terms)
    let filtered := scored.filter (fun s => decide (min_score ≤ (s.score : ℚ)))
    (sortDesc filtered).take max_articles

/-!
## String helpers used only in statements and proofs
-/

/-- First character of a string, if any. -/
def firstChar (s : String) : Option Char := s.data.head?

/-- Boolean "s starts with p" on the underlying character lists. -/
def startsWithStr (p s : String) : Bool := p.data.isPrefixOf s.data

/-!
## Lemmas about the stable sort
-/

theorem mem_insertDesc {x a : ScoredArticle} {l : List ScoredArticle} :
    a ∈ insertDesc x l ↔ a = x ∨ a ∈ l := by
  induction l with
  | nil => simp [insertDesc]
  | cons y ys ih =>
    by_cases h : x.score < y.score
    · simp only [insertDesc, if_pos h, List.mem_cons, ih]
      tauto
    · simp only [insertDesc, if_neg h, List.mem_cons]

theorem mem_sortDesc {a : ScoredArticle} {l : List ScoredArticle} :
    a ∈ sortDesc l ↔ a ∈ l := by
  induction l with
  | nil => simp [sortDesc]
  | cons x xs ih => simp [sortDesc, mem_insertDesc, ih]

theorem pairwise_insertDesc (x : ScoredArticle) {l : List ScoredArticle}
    (h : l.Pairwise (fun a b => b.score ≤ a.score)) :
    (insertDesc x l).Pairwise (fun a b => b.score ≤ a.score) := by
  induction l with
  | nil => simp [insertDesc]
  | cons y ys ih =>
    rcases List.pairwise_cons.mp h with ⟨hy, hys⟩
    by_cases hxy : x.score < y.score
    · rw [insertDesc, if_pos hxy]
      refine List.pairwise_cons.mpr ⟨?_, ih hys⟩
      intro z hz
      rcases mem_insertDesc.mp hz with rfl | hz'
      · exact le_of_lt hxy
      · exact hy z hz'
    · rw [insertDesc, if_neg hxy]
      refine List.pairwise_cons.mpr ⟨?_, h⟩
      intro z hz
      rcases List.mem_cons.mp hz with rfl | hz'
      · exact le_of_not_lt hxy
      · exact le_trans (hy z hz') (le_of_not_lt hxy)

theorem pairwise_sortDesc (l : List ScoredArticle) :
    (sortDesc l).Pairwise (fun a b => b.score ≤ a.score) := by
  induction l with
  | nil => simp [sortDesc]
  | cons x xs ih => exact pairwise_insertDesc x ih

theorem filter_insertDesc (x : ScoredArticle) (l : List ScoredArticle) (c : Int) :
    (insertDesc x l).filter (fun s => decide (s.score = c)) =
      if x.score = c then x :: l.filter (fun s => decide (s.score = c))
      else l.filter (fun s => decide (s.score = c)) := by
  induction l with
  | nil =>
    by_cases h : x.score = c <;> simp [insertDesc, h]
  | cons y ys ih =>
    by_cases hxy : x.score < y.score
    · rw [insertDesc, if_pos hxy]
      by_cases hx : x.score = c
      · have hy : ¬ y.score = c := by omega
        simp [List.filter_cons, hx, hy, ih]
      · simp [List.filter_cons, hx, ih]
    · rw [insertDesc, if_neg hxy]
      by_cases hx : x.score = c <;> simp [List.filter_cons, hx]

theorem filter_sortDesc (l : List ScoredArticle) (c : Int) :
    (sortDesc l).filter (fun s => decide (s.score = c)) =
      l.filter (fun s => decide (s.score = c)) := by
  induction l with
  | nil => simp [sortDesc]
  | cons x xs ih =>
    rw [sortDesc, filter_insertDesc]
    by_cases hx : x.score = c <;> simp [List.filter_cons, hx, ih]

/-- Inserting after all strictly larger scores and before a no-larger head. -/
theorem insertDesc_eq (x : ScoredArticle) (l₁ l₂ : List ScoredArticle)
    (h₁ : ∀ b ∈ l₁, x.score < b.score)
    (h₂ : ∀ y, l₂.head? = some y → y.score ≤ x.score) :
    insertDesc x (l₁ ++ l₂) = l₁ ++ x :: l₂ := by
  induction l₁ with
  | nil =>
    cases l₂ with
    | nil => rfl
    | cons y ys =>
      have hy : y.score ≤ x.score := h₂ y rfl
      simp only [List.nil_append, insertDesc, if_neg (not_lt.mpr hy)]
  | cons b bs ih =>
    have hb : x.score < b.score := h₁ b (List.mem_cons_self b bs)
    simp only [List.cons_append, insertDesc, if_pos hb]
    exact congrArg (List.cons b) (ih (fun b' hb' => h₁ b' (List.mem_cons_of_mem _ hb')))

/-- The stable insertion sort agrees with the standard stable `mergeSort`
under the descending comparison — i.e. `sortDesc` is exactly the stable
descending sort performed by Python's `list.sort(key=score, reverse=True)`. -/
theorem sortDesc_eq_mergeSort (l : List ScoredArticle) :
    sortDesc l = l.mergeSort (fun a b => decide (b.score ≤ a.score)) := by
  have trans : ∀ (a b c : ScoredArticle),
      decide (b.score ≤ a.score) → decide (c.score ≤ b.score) →
      decide (c.score ≤ a.score) := by
    intro a b c hab hbc
    simp only [decide_eq_true_eq] at *
    omega
  have total : ∀ (a b : ScoredArticle),
      decide (b.score ≤ a.score) || decide (a.score ≤ b.score) := by
    intro a b
    simp only [Bool.or_eq_true, decide_eq_true_eq]
    omega
  induction l with
  | nil => simp [sortDesc]
  | cons x xs ih =>
    obtain ⟨l₁, l₂, h₁, h₂, h₃⟩ := List.mergeSort_cons trans total x xs
    rw [sortDesc, ih, h₂, h₁]
    apply insertDesc_eq
    · intro b hb
      have hb' := h₃ b hb
      simp only [Bool.not_eq_true', decide_eq_false_iff_not, not_le] at hb'
      exact hb'
    · intro y hy
      have hs := List.sorted_mergeSort trans total (x :: xs)
      rw [h₁] at hs
      have hx := (List.pairwise_append.mp hs).2.1
      have : y ∈ l₂ := by
        cases l₂ with
        | nil => simp at hy
        | cons z zs =>
          simp only [List.head?_cons, Option.some_inj] at hy
          exact hy ▸ List.mem_cons_self z zs
      have := (List.pairwise_cons.mp hx).1 y this
      simpa using this

/-!
## Lemmas about reason tags and the scoring rules
-/

theorem firstChar_append (a b : String) (c : Char) (h : firstChar a = some c) :
    firstChar (a ++ b) = some c := by
  unfold firstChar at *
  rw [String.data_append]
  cases ha : a.data with
  | nil => rw [ha] at h; simp at h
  | cons x xs => rw [ha] at h; simpa using h

theorem mem_titleRule_firstChar {qt : List String} {t r : String}
    (h : r ∈ (titleRule qt t).2) : firstChar r = some 't' := by
  by_cases hm : 0 < matchCount qt t
  · simp [titleRule, hm] at h
    subst h
    exact firstChar_append _ _ _ rfl
  · simp [titleRule, hm] at h

theorem mem_descRule_firstChar {qt : List String} {t r : String}
    (h : r ∈ (descRule qt t).2) : firstChar r = some 'd' := by
  by_cases hm : 0 < matchCount qt t
  · simp [descRule, hm] at h
    subst h
    exact firstChar_append _ _ _ rfl
  · simp [descRule, hm] at h

theorem mem_entityRule_firstChar {et at_ r : String}
    (h : r ∈ (entityRule et at_).2) : firstChar r = some 'e' := by
  unfold entityRule at h
  simp only [List.mem_map] at h
  obtain ⟨e, -, rfl⟩ := h
  exact firstChar_append _ _ _ rfl

theorem mem_qualityRule_firstChar {sn r : String}
    (h : r ∈ (qualityRule sn).2) : firstChar r = some 'q' := by
  unfold qualityRule at h
  split at h
  · simp at h
    subst h
    rfl
  · simp at h

/-- The reasons of `score_article`, unfolded to the five rule components. -/
theorem score_article_reasons (now : Int) (a : Article) (ev : Event) (qt : List String) :
    (score_article now a ev qt).match_reasons =
      (titleRule qt (strLower a.title)).2 ++
      (descRule qt (strLower (a.description.getD ""))).2 ++
      (entityRule ev.title (strLower a.title)).2 ++
      (recencyRule now a.published_at).2 ++
      (qualityRule a.source_name).2 := rfl

/-- The score of `score_article`, unfolded to the five rule components. -/
theorem score_article_score (now : Int) (a : Article) (ev : Event) (qt : List String) :
    (score_article now a ev qt).score =
      (titleRule qt (strLower a.title)).1 +
      (descRule qt (strLower (a.description.getD ""))).1 +
      (entityRule ev.title (strLower a.title)).1 +
      (recencyRule now a.published_at).1 +
      (qualityRule a.source_name).1 := rfl

/-- A recency tag occurs among the reasons iff the recency rule emitted it:
no other rule produces a tag starting with `v` or `r`. -/
theorem recency_mem_reasons (now : Int) (a : Article) (ev : Event) (qt : List String)
    (r : String) (hr : r = "very_recent" ∨ r = "recent") :
    (r ∈ (score_article now a ev qt).match_reasons ↔
      r ∈ (recencyRule now a.published_at).2) := by
  rw [score_article_reasons]
  simp only [List.mem_append]
  constructor
  · rintro ((((h | h) | h) | h) | h)
    · have h1 := mem_titleRule_firstChar h
      rcases hr with rfl | rfl <;> exact absurd h1 (by decide)
    · have h1 := mem_descRule_firstChar h
      rcases hr with rfl | rfl <;> exact absurd h1 (by decide)
    · have h1 := mem_entityRule_firstChar h
      rcases hr with rfl | rfl <;> exact absurd h1 (by decide)
    · exact h
    · have h1 := mem_qualityRule_firstChar h
      rcases hr with rfl | rfl <;> exact absurd h1 (by decide)
  · intro h
    exact Or.inl (Or.inr h)

/-- Removing `published_at` removes exactly the recency-rule contribution
from the score (the other four rules do not read `published_at`). -/
theorem score_split (now : Int) (a : Article) (ev : Event) (qt : List String) :
    (score_article now a ev qt).score =
      (score_article now { a with published_at := none } ev qt).score +
      (recencyRule now a.published_at).1 := by
  rw [score_article_score, score_article_score]
  show _ = _ + _ + _ + (recencyRule now none).1 + _ + _
  simp only [recencyRule]
  ring

theorem recencyRule_branch1 (now pub : Int) (hd : (now - pub).fdiv 86400 ≤ 1) :
    recencyRule now (some pub) = (2, ["very_recent"]) := by
  simp [recencyRule, hd]

theorem recencyRule_branch2 (now pub : Int) (hd1 : 1 < (now - pub).fdiv 86400)
    (hd3 : (now - pub).fdiv 86400 ≤ 3) :
    recencyRule now (some pub) = (1, ["recent"]) := by
  have h1 : ¬ (now - pub).fdiv 86400 ≤ 1 := by omega
  simp [recencyRule, h1, hd3]

theorem recencyRule_branch3 (now pub : Int) (hd : 3 < (now - pub).fdiv 86400) :
    recencyRule now (some pub) = (0, []) := by
  have h1 : ¬ (now - pub).fdiv 86400 ≤ 1 := by omega
  have h3 : ¬ (now - pub).fdiv 86400 ≤ 3 := by omega
  simp [recencyRule, h1, h3]

theorem titleRule_nonneg (qt : List String) (t : String) :
    0 ≤ (titleRule qt t).1 ∧ ((titleRule qt t).1 = 0 ↔ (titleRule qt t).2 = []) := by
  by_cases hm : 0 < matchCount qt t
  · simp only [titleRule, if_pos hm]
    refine ⟨by positivity, ?_⟩
    simp only [List.cons_ne_nil, iff_false]
    have : (0 : Int) < (matchCount qt t : Int) * 3 := by positivity
    omega
  · simp [titleRule, hm]

theorem descRule_nonneg (qt : List String) (t : String) :
    0 ≤ (descRule qt t).1 ∧ ((descRule qt t).1 = 0 ↔ (descRule qt t).2 = []) := by
  by_cases hm : 0 < matchCount qt t
  · simp only [descRule, if_pos hm]
    refine ⟨by positivity, ?_⟩
    simp only [List.cons_ne_nil, iff_false]
    omega
  · simp [descRule, hm]

theorem entityRule_nonneg (et at_ : String) :
    0 ≤ (entityRule et at_).1 ∧ ((entityRule et at_).1 = 0 ↔ (entityRule et at_).2 = []) := by
  unfold entityRule
  refine ⟨by positivity, ?_⟩
  simp only [List.map_eq_nil_iff]
  constructor
  · intro h
    have : ((findEntities et).filter (fun e => listContains at_.data (strLower e).data)).length = 0 := by
      omega
    exact List.length_eq_zero.mp this
  · intro h
    rw [h]
    simp

theorem recencyRule_nonneg (now : Int) (p : Option Int) :
    0 ≤ (recencyRule now p).1 ∧ ((recencyRule now p).1 = 0 ↔ (recencyRule now p).2 = []) := by
  cases p with
  | none => simp [recencyRule]
  | some pub =>
    by_cases h1 : (now - pub).fdiv 86400 ≤ 1
    · rw [recencyRule_branch1 now pub h1]
      simp
    · by_cases h3 : (now - pub).fdiv 86400 ≤ 3
      · rw [recencyRule_branch2 now pub (by omega) h3]
        simp
      · rw [recencyRule_branch3 now pub (by omega)]
        simp

theorem qualityRule_nonneg (sn : String) :
    0 ≤ (qualityRule sn).1 ∧ ((qualityRule sn).1 = 0 ↔ (qualityRule sn).2 = []) := by
  unfold qualityRule
  split <;> simp

/-!
## Claim theorems: scoring (C4, C8, C9)
-/

/-- C8. The score produced by `score_article` is always non-negative, and it
is zero exactly when `match_reasons` is empty: every rule that fires adds a
positive amount and appends at least one reason tag. -/
theorem C8_score_nonneg (now : Int) (a : Article) (ev : Event) (qt : List String) :
    0 ≤ (score_article now a ev qt).score ∧
    ((score_article now a ev qt).score = 0 ↔
      (score_article now a ev qt).match_reasons = []) := by
  obtain ⟨n1, i1⟩ := titleRule_nonneg qt (strLower a.title)
  obtain ⟨n2, i2⟩ := descRule_nonneg qt (strLower (a.description.getD ""))
  obtain ⟨n3, i3⟩ := entityRule_nonneg ev.title (strLower a.title)
  obtain ⟨n4, i4⟩ := recencyRule_nonneg now a.published_at
  obtain ⟨n5, i5⟩ := qualityRule_nonneg a.source_name
  rw [score_article_score, score_article_reasons]
  constructor
  · omega
  · simp only [List.append_eq_nil]
    constructor
    · intro h0
      exact ⟨⟨⟨⟨i1.mp (by omega), i2.mp (by omega)⟩, i3.mp (by omega)⟩,
        i4.mp (by omega)⟩, i5.mp (by omega)⟩
    · rintro ⟨⟨⟨⟨h1, h2⟩, h3⟩, h4⟩, h5⟩
      have := i1.mpr h1
      have := i2.mpr h2
      have := i3.mpr h3
      have := i4.mpr h4
      have := i5.mpr h5
      omega

/-- C4. With `published_at` present, the recency rule adds +2 and tags
`very_recent` when the article's age in whole days (`timedelta.days`, i.e.
floor of the age over 86400 s) is at most 1; otherwise +1 and `recent` when
the age is at most 3 days; otherwise nothing. With `published_at` absent the
rule is skipped. The claim's instances (exactly 1 day ago → +2, 2 days → +1,
4 days → neither) are checked in the witness. -/
theorem C4_recency_bonus (now : Int) (a : Article) (ev : Event) (qt : List String)
    (pub : Int) (h : a.published_at = some pub) :
    ((now - pub).fdiv 86400 ≤ 1 →
      (score_article now a ev qt).score =
        (score_article now { a with published_at := none } ev qt).score + 2 ∧
      "very_recent" ∈ (score_article now a ev qt).match_reasons ∧
      "recent" ∉ (score_article now a ev qt).match_reasons) ∧
    (1 < (now - pub).fdiv 86400 → (now - pub).fdiv 86400 ≤ 3 →
      (score_article now a ev qt).score =
        (score_article now { a with published_at := none } ev qt).score + 1 ∧
      "recent" ∈ (score_article now a ev qt).match_reasons ∧
      "very_recent" ∉ (score_article now a ev qt).match_reasons) ∧
    (3 < (now - pub).fdiv 86400 →
      (score_article now a ev qt).score =
        (score_article now { a with published_at := none } ev qt).score ∧
      "very_recent" ∉ (score_article now a ev qt).match_reasons ∧
      "recent" ∉ (score_article now a ev qt).match_reasons) ∧
    ("very_recent" ∉ (score_article now { a with published_at := none } ev qt).match_reasons ∧
     "recent" ∉ (score_article now { a with published_at := none } ev qt).match_reasons) := by
  have hsplit := score_split now a ev qt
  rw [h] at hsplit
  have hmemV := recency_mem_reasons now a ev qt "very_recent" (Or.inl rfl)
  have hmemR := recency_mem_reasons now a ev qt "recent" (Or.inr rfl)
  rw [h] at hmemV hmemR
  have hmemV0 := recency_mem_reasons now { a with published_at := none } ev qt
    "very_recent" (Or.inl rfl)
  have hmemR0 := recency_mem_reasons now { a with published_at := none } ev qt
    "recent" (Or.inr rfl)
  refine ⟨?_, ?_, ?_, ?_⟩
  · intro hd
    rw [recencyRule_branch1 now pub hd] at hsplit hmemV hmemR
    refine ⟨hsplit, hmemV.mpr (by simp), ?_⟩
    intro hmem
    have := hmemR.mp hmem
    simp at this
  · intro hd1 hd3
    rw [recencyRule_branch2 now pub hd1 hd3] at hsplit hmemV hmemR
    refine ⟨hsplit, hmemR.mpr (by simp), ?_⟩
    intro hmem
    have := hmemV.mp hmem
    simp at this
  · intro hd
    rw [recencyRule_branch3 now pub hd] at hsplit hmemV hmemR
    refine ⟨by omega, ?_, ?_⟩
    · intro hmem
      exact absurd (hmemV.mp hmem) (List.not_mem_nil _)
    · intro hmem
      exact absurd (hmemR.mp hmem) (List.not_mem_nil _)
  · constructor
    · intro hmem
      exact absurd (hmemV0.mp hmem) (List.not_mem_nil _)
    · intro hmem
      exact absurd (hmemR0.mp hmem) (List.not_mem_nil _)

/-- Witness for C4: with `now = 0`, an article published exactly 1 day ago
gets +2 and `very_recent`; 2 days ago gets +1 and `recent`; 4 days ago gets
neither tag. -/
theorem C4_recency_bonus_witness :
    ((score_article 0 { title := "x", published_at := some (-86400) } { title := "y" } []).score =
      (score_article 0 { title := "x" } { title := "y" } []).score + 2 ∧
     "very_recent" ∈ (score_article 0 { title := "x", published_at := some (-86400) }
        { title := "y" } []).match_reasons) ∧
    ((score_article 0 { title := "x", published_at := some (-172800) } { title := "y" } []).score =
      (score_article 0 { title := "x" } { title := "y" } []).score + 1 ∧
     "recent" ∈ (score_article 0 { title := "x", published_at := some (-172800) }
        { title := "y" } []).match_reasons) ∧
    ("very_recent" ∉ (score_article 0 { title := "x", published_at := some (-345600) }
        { title := "y" } []).match_reasons ∧
     "recent" ∉ (score_article 0 { title := "x", published_at := some (-345600) }
        { title := "y" } []).match_reasons) := by
  have h1 := (C4_recency_bonus 0 { title := "x", published_at := some (-86400) }
    { title := "y" } [] (-86400) rfl).1 (by decide)
  have h2 := ((C4_recency_bonus 0 { title := "x", published_at := some (-172800) }
    { title := "y" } [] (-172800) rfl).2.1) (by decide) (by decide)
  have h3 := ((C4_recency_bonus 0 { title := "x", published_at := some (-345600) }
    { title := "y" } [] (-345600) rfl).2.2.1) (by decide)
  exact ⟨⟨h1.1, h1.2.1⟩, ⟨h2.1, h2.2.1⟩, h3.2.1, h3.2.2⟩

/-- C9. An article whose `published_at` lies in the future still earns the
`very_recent` +2 bonus: the computed age in whole days is negative, which
satisfies the `days_old ≤ 1` branch. -/
theorem C9_future_article (now pub : Int) (a : Article) (ev : Event) (qt : List String)
    (h : a.published_at = some pub) (hf : now < pub) :
    (now - pub).fdiv 86400 < 0 ∧
    (score_article now a ev qt).score =
      (score_article now { a with published_at := none } ev qt).score + 2 ∧
    "very_recent" ∈ (score_article now a ev qt).match_reasons := by
  have hneg : (now - pub).fdiv 86400 < 0 := by
    rw [Int.fdiv_eq_ediv _ (by norm_num)]
    omega
  have hsplit := score_split now a ev qt
  rw [h, recencyRule_branch1 now pub (by omega)] at hsplit
  have hmemV := recency_mem_reasons now a ev qt "very_recent" (Or.inl rfl)
  rw [h, recencyRule_branch1 now pub (by omega)] at hmemV
  exact ⟨hneg, hsplit, hmemV.mpr (by simp)⟩

/-- Witness for C9: an article published one day in the future (`now = 0`,
`published_at = 86400`). -/
theorem C9_future_article_witness :
    ((0 : Int) - 86400).fdiv 86400 < 0 ∧
    (score_article 0 { title := "x", published_at := some 86400 } { title := "y" } []).score =
      (score_article 0 { title := "x" } { title := "y" } []).score + 2 ∧
    "very_recent" ∈ (score_article 0 { title := "x", published_at := some 86400 }
      { title := "y" } []).match_reasons :=
  C9_future_article 0 86400 { title := "x", published_at := some 86400 }
    { title := "y" } [] rfl (by decide)

/-!
## Lemmas for the `title_match` tag shape (C5)
-/

theorem isPrefixOf_append_self (l t : List Char) : l.isPrefixOf (l ++ t) = true := by
  induction l with
  | nil => cases t <;> rfl
  | cons c cs ih => simp [List.isPrefixOf, ih]

theorem not_isPrefixOf_head {a b : Char} (l1 l2 : List Char) (h : ¬ a = b) :
    (a :: l1).isPrefixOf (b :: l2) = false := by
  simp [List.isPrefixOf, h]

theorem startsWith_titleTag (s : String) :
    startsWithStr "title_match:" ("title_match:" ++ s) = true := by
  unfold startsWithStr
  rw [String.data_append]
  exact isPrefixOf_append_self _ _

theorem titleTag_not_descTag (s : String) :
    startsWithStr "title_match:" ("desc_match:" ++ s) = false := by
  unfold startsWithStr
  rw [String.data_append]
  rw [show ("title_match:" : String).data = 't' :: ("itle_match:" : String).data from rfl]
  rw [show ("desc_match:" : String).data = 'd' :: ("esc_match:" : String).data from rfl]
  rw [List.cons_append]
  exact not_isPrefixOf_head _ _ (by decide)

theorem titleTag_not_entityTag (s : String) :
    startsWithStr "title_match:" ("entity:" ++ s) = false := by
  unfold startsWithStr
  rw [String.data_append]
  rw [show ("title_match:" : String).data = 't' :: ("itle_match:" : String).data from rfl]
  rw [show ("entity:" : String).data = 'e' :: ("ntity:" : String).data from rfl]
  rw [List.cons_append]
  exact not_isPrefixOf_head _ _ (by decide)

/-!
## Claim theorems: title-match rule (C5, corrected)
-/

/-- Counterexample to C5 as stated: with the duplicated query-term list
`["abc", "abc"]` and article title `"abc"`, the emitted tag is
`title_match:2` (terms are counted with multiplicity), while the number of
*distinct* matching terms is 1 — so the tag's count is not the number of
distinct matching terms. -/
theorem C5_counterexample :
    (score_article 0 { title := "abc" } { title := "zzz" } ["abc", "abc"]).match_reasons =
      ["title_match:" ++ toString 2] ∧
    ((["abc", "abc"].filter (fun t =>
        listContains (strLower ("abc" : String)).data (strLower (stripQuotes t)).data)).dedup).length = 1 ∧
    ("title_match:" ++ toString 2) ≠ ("title_match:" ++ toString 1) := by
  decide

/-- C5 (amended). The title-match rule adds 3 points for each query-term
list entry (quote markers stripped, lower-cased) found as a substring of the
lower-cased article title — entries counted with multiplicity, not
deduplicated — and when at least one entry matches it emits exactly one
reason tag of the form `title_match:<count>`, whose count is that number of
matching entries (`matchCount`). -/
theorem C5_title_match (now : Int) (a : Article) (ev : Event) (qt : List String) :
    ((score_article now a ev qt).match_reasons.filter
        (fun r => startsWithStr "title_match:" r) =
      if 0 < matchCount qt (strLower a.title) then
        ["title_match:" ++ toString (matchCount qt (strLower a.title))]
      else []) ∧
    (score_article now a ev qt).score =
      3 * (matchCount qt (strLower a.title) : Int) +
      ((descRule qt (strLower (a.description.getD ""))).1 +
       (entityRule ev.title (strLower a.title)).1 +
       (recencyRule now a.published_at).1 +
       (qualityRule a.source_name).1) := by
  constructor
  · rw [score_article_reasons]
    simp only [List.filter_append]
    have h1 : (titleRule qt (strLower a.title)).2.filter
        (fun r => startsWithStr "title_match:" r) =
        if 0 < matchCount qt (strLower a.title) then
          ["title_match:" ++ toString (matchCount qt (strLower a.title))] else [] := by
      by_cases hm : 0 < matchCount qt (strLower a.title) <;>
        simp [titleRule, hm, List.filter_cons, startsWith_titleTag]
    have h2 : (descRule qt (strLower (a.description.getD ""))).2.filter
        (fun r => startsWithStr "title_match:" r) = [] := by
      by_cases hm : 0 < matchCount qt (strLower (a.description.getD "")) <;>
        simp [descRule, hm, List.filter_cons, titleTag_not_descTag]
    have h3 : (entityRule ev.title (strLower a.title)).2.filter
        (fun r => startsWithStr "title_match:" r) = [] := by
      unfold entityRule
      rw [List.filter_map]
      simp [Function.comp, titleTag_not_entityTag]
    have h4 : (recencyRule now a.published_at).2.filter
        (fun r => startsWithStr "title_match:" r) = [] := by
      cases hp : a.published_at with
      | none => simp [recencyRule]
      | some pub =>
        by_cases hd1 : (now - pub).fdiv 86400 ≤ 1
        · rw [recencyRule_branch1 now pub hd1]
          simp [List.filter_cons]
          decide
        · by_cases hd3 : (now - pub).fdiv 86400 ≤ 3
          · rw [recencyRule_branch2 now pub (by omega) hd3]
            simp [List.filter_cons]
            decide
          · rw [recencyRule_branch3 now pub (by omega)]
            rfl
    have h5 : (qualityRule a.source_name).2.filter
        (fun r => startsWithStr "title_match:" r) = [] := by
      unfold qualityRule
      split
      · simp [List.filter_cons]
        decide
      · rfl
    rw [h1, h2, h3, h4, h5]
    simp
  · rw [score_article_score]
    have h1 : (titleRule qt (strLower a.title)).1 =
        3 * (matchCount qt (strLower a.title) : Int) := by
      by_cases hm : 0 < matchCount qt (strLower a.title)
      · simp only [titleRule, if_pos hm]
        ring
      · have : matchCount qt (strLower a.title) = 0 := by omega
        simp [titleRule, hm, this]
    rw [h1]
    ring

/-!
## Claim theorems: orchestrator (C1, C2, C3)
-/

/-- C1. Every `ScoredArticle` returned by `match_news_to_event` — for any
event and any outcome of the News Client call — has `score ≥ min_score`;
no element below the threshold is ever returned. -/
theorem C1_score_floor (now : Int) (ev : Event) (fetched : Except String (List Article))
    (ma : Nat) (ms : ℚ) :
    ∀ s ∈ match_news_to_event now ev fetched ma ms, ms ≤ (s.score : ℚ) := by
  intro s hs
  cases fetched with
  | error msg => simp [match_news_to_event] at hs
  | ok articles =>
    unfold match_news_to_event at hs
    have h1 : s ∈ sortDesc (((articles.map (fun a =>
        score_article now a ev (pySplit (build_news_query ev)))).filter
        (fun s => decide (ms ≤ (s.score : ℚ))))) :=
      List.mem_of_mem_take hs
    have h2 := (List.mem_filter.mp (mem_sortDesc.mp h1)).2
    exact of_decide_eq_true h2

/-- Witness for C1 at a concrete event and article: the single returned
article clears the default 2.0 threshold. -/
theorem C1_score_floor_witness :
    (2 : ℚ) ≤ (((score_article 0 { title := "zergon" } { title := "Zergon" }
      (pySplit (build_news_query { title := "Zergon" }))).score : Int) : ℚ) :=
  C1_score_floor 0 { title := "Zergon" }
    (.ok [{ title := "zergon" }]) 5 2
    (score_article 0 { title := "zergon" } { title := "Zergon" }
      (pySplit (build_news_query { title := "Zergon" })))
    (by decide)

/-- C2. The sequence returned by `match_news_to_event` is sorted by score
descending (each adjacent pair satisfies `score[i] ≥ score[i+1]`), and
elements with equal scores keep the relative order of the underlying fetched
article list: for every score value, the returned articles with that score
form a sublist of the scored fetch-order list restricted to that score. -/
theorem C2_sorted_stable (now : Int) (ev : Event) (arts : List Article) (ma : Nat) (ms : ℚ) :
    (match_news_to_event now ev (.ok arts) ma ms).Pairwise (fun a b => b.score ≤ a.score) ∧
    ∀ c : Int,
      ((match_news_to_event now ev (.ok arts) ma ms).filter
          (fun s => decide (s.score = c))).Sublist
        ((arts.map (fun a => score_article now a ev (pySplit (build_news_query ev)))).filter
          (fun s => decide (s.score = c))) := by
  have heq : match_news_to_event now ev (.ok arts) ma ms
      = (sortDesc ((arts.map (fun a => score_article now a ev (pySplit (build_news_query ev)))).filter
          (fun s => decide (ms ≤ (s.score : ℚ))))).take ma := rfl
  constructor
  · rw [heq]
    exact List.Pairwise.sublist (List.take_sublist _ _) (pairwise_sortDesc _)
  · intro c
    rw [heq]
    set L := arts.map (fun a => score_article now a ev (pySplit (build_news_query ev))) with hL
    have h1 := List.Sublist.filter (fun s => decide (s.score = c))
      (List.take_sublist ma (sortDesc (L.filter (fun s => decide (ms ≤ (s.score : ℚ))))))
    rw [filter_sortDesc] at h1
    exact h1.trans (List.Sublist.filter _ (List.filter_sublist _))

/-- C3. If the News Client raises (any error), `match_news_to_event` returns
the empty sequence instead of propagating; a successful fetch with zero
articles likewise yields the empty sequence. -/
theorem C3_remote_failure (now : Int) (ev : Event) (msg : String) (ma : Nat) (ms : ℚ) :
    match_news_to_event now ev (.error msg) ma ms = [] ∧
    match_news_to_event now ev (.ok []) ma ms = [] :=
  ⟨rfl, by simp [match_news_to_event, sortDesc]⟩

/-!
## Claim theorem: time window (C6)
-/

/-- C6. `from_date` is `start_date - buffer_days` clamped to no earlier than
`now - 30 days` when `start_date` is present, and `now - default_days_back`
days otherwise. -/
theorem C6_time_window (now : Int) (ev : Event) (ddb bd : Int) :
    (∀ s, ev.start_date = some s →
      (get_time_window now ev ddb bd).1 = max (s - bd * 86400) (now - 30 * 86400)) ∧
    (ev.start_date = none →
      (get_time_window now ev ddb bd).1 = now - ddb * 86400) := by
  constructor
  · intro s hs
    simp [get_time_window, hs]
  · intro hs
    simp [get_time_window, hs]

/-- Witness for C6: with `start_date` 40 days before now and
`buffer_days = 2`, `from_date` is clamped to `now - 30 days`
(here `now = 0`, so `-2592000`), not `now - 42 days`. -/
theorem C6_time_window_witness :
    (get_time_window 0 { title := "x", start_date := some (-3456000) } 7 2).1 = -2592000 := by
  have h := (C6_time_window 0 { title := "x", start_date := some (-3456000) } 7 2).1
    (-3456000) rfl
  rw [h]
  decide

/-!
## Lemmas about the entity-insertion loop (C7, C10)
-/

/-- A string never equals its quoted form (the lengths differ by 2). -/
theorem quoteStr_ne (e : String) : e ≠ quoteStr e := by
  intro h
  have hl := congrArg String.length h
  rw [quoteStr, String.length_append, String.length_append] at hl
  rw [show ("\"" : String).length = 1 from rfl] at hl
  omega

/-- One loop step, insertion hitting the cap. -/
theorem entityLoop_step_break (mt : Nat) (e : String) (rest terms : List String)
    (hc : strLower e ∉ STOP_WORDS ∧ e ∉ terms)
    (hb : mt ≤ (quoteStr e :: terms).length) :
    entityLoop mt (e :: rest) terms = quoteStr e :: terms := by
  simp only [entityLoop, if_pos hc, if_pos hb]

/-- One loop step, insertion below the cap. -/
theorem entityLoop_step_go (mt : Nat) (e : String) (rest terms : List String)
    (hc : strLower e ∉ STOP_WORDS ∧ e ∉ terms)
    (hb : ¬ mt ≤ (quoteStr e :: terms).length) :
    entityLoop mt (e :: rest) terms = entityLoop mt rest (quoteStr e :: terms) := by
  simp only [entityLoop, if_pos hc, if_neg hb]

/-- One loop step, entity skipped. -/
theorem entityLoop_step_skip (mt : Nat) (e : String) (rest terms : List String)
    (hc : ¬ (strLower e ∉ STOP_WORDS ∧ e ∉ terms)) :
    entityLoop mt (e :: rest) terms = entityLoop mt rest terms := by
  simp only [entityLoop, if_neg hc]

/-- The entity loop only adds quoted, non-stop-word entities, at the front
of the existing term list. -/
theorem entityLoop_shape (mt : Nat) :
    ∀ (entities terms : List String), ∃ qs : List String,
      entityLoop mt entities terms = qs ++ terms ∧
      ∀ q ∈ qs, ∃ e, e ∈ entities ∧ q = quoteStr e ∧ strLower e ∉ STOP_WORDS := by
  intro entities
  induction entities with
  | nil => exact fun terms => ⟨[], rfl, by simp⟩
  | cons e rest ih =>
    intro terms
    by_cases hc : strLower e ∉ STOP_WORDS ∧ e ∉ terms
    · by_cases hb : mt ≤ (quoteStr e :: terms).length
      · refine ⟨[quoteStr e], ?_, ?_⟩
        · simp only [entityLoop, if_pos hc, if_pos hb]
          rfl
        · intro q hq
          simp only [List.mem_singleton] at hq
          exact ⟨e, List.mem_cons_self e rest, hq, hc.1⟩
      · obtain ⟨qs, hq, hmem⟩ := ih (quoteStr e :: terms)
        refine ⟨qs ++ [quoteStr e], ?_, ?_⟩
        · simp only [entityLoop, if_pos hc, if_neg hb]
          rw [hq]
          simp
        · intro q hq'
          rcases List.mem_append.mp hq' with h' | h'
          · obtain ⟨e', he', hqe, hst⟩ := hmem q h'
            exact ⟨e', List.mem_cons_of_mem e he', hqe, hst⟩
          · simp only [List.mem_singleton] at h'
            exact ⟨e, List.mem_cons_self e rest, h', hc.1⟩
    · obtain ⟨qs, hq, hmem⟩ := ih terms
      refine ⟨qs, ?_, ?_⟩
      · simp only [entityLoop, if_neg hc]
        exact hq
      · intro q hq'
        obtain ⟨e', he', hqe, hst⟩ := hmem q hq'
        exact ⟨e', List.mem_cons_of_mem e he', hqe, hst⟩

/-- Terms already collected survive the entity loop. -/
theorem entityLoop_mem_of_mem (mt : Nat) (entities terms : List String)
    {x : String} (hx : x ∈ terms) : x ∈ entityLoop mt entities terms := by
  obtain ⟨qs, hq, -⟩ := entityLoop_shape mt entities terms
  rw [hq]
  exact List.mem_append_right qs hx

/-- The loop breaks once the term count reaches `max_terms`: starting below
the cap, the result never exceeds it. -/
theorem entityLoop_length (mt : Nat) :
    ∀ (entities terms : List String), terms.length < mt →
      (entityLoop mt entities terms).length ≤ mt := by
  intro entities
  induction entities with
  | nil => exact fun terms h => le_of_lt h
  | cons e rest ih =>
    intro terms hterms
    by_cases hc : strLower e ∉ STOP_WORDS ∧ e ∉ terms
    · by_cases hb : mt ≤ (quoteStr e :: terms).length
      · simp only [entityLoop, if_pos hc, if_pos hb]
        simp only [List.length_cons]
        omega
      · simp only [entityLoop, if_pos hc, if_neg hb]
        exact ih (quoteStr e :: terms) (by omega)
    · simp only [entityLoop, if_neg hc]
      exact ih terms hterms

/-- If the loop never hit the cap (the result stayed below `max_terms`),
every detected entity whose lower-cased form is not a stop word was either
inserted in quoted form or was already among the terms. -/
theorem entityLoop_complete (mt : Nat) :
    ∀ (entities terms : List String),
      (entityLoop mt entities terms).length < mt →
      ∀ e ∈ entities, strLower e ∉ STOP_WORDS →
        quoteStr e ∈ entityLoop mt entities terms ∨ e ∈ entityLoop mt entities terms := by
  intro entities
  induction entities with
  | nil =>
    intro terms _ e he
    exact absurd he (List.not_mem_nil e)
  | cons e' rest ih =>
    intro terms hlen e he hstop
    by_cases hc : strLower e' ∉ STOP_WORDS ∧ e' ∉ terms
    · by_cases hb : mt ≤ (quoteStr e' :: terms).length
      · rw [show entityLoop mt (e' :: rest) terms = quoteStr e' :: terms by
          simp only [entityLoop, if_pos hc, if_pos hb]] at hlen
        simp only [List.length_cons] at hlen hb
        omega
      · have hres : entityLoop mt (e' :: rest) terms =
            entityLoop mt rest (quoteStr e' :: terms) := by
          simp only [entityLoop, if_pos hc, if_neg hb]
        rw [hres] at hlen ⊢
        rcases List.mem_cons.mp he with rfl | hrest
        · exact Or.inl (entityLoop_mem_of_mem mt rest _ (List.mem_cons_self _ _))
        · exact ih (quoteStr e' :: terms) hlen e hrest hstop
    · have hres : entityLoop mt (e' :: rest) terms = entityLoop mt rest terms := by
        simp only [entityLoop, if_neg hc]
      rw [hres] at hlen ⊢
      rcases List.mem_cons.mp he with rfl | hrest
      · rcases Decidable.not_and_iff_or_not.mp hc with h' | h'
        · exact absurd hstop h'
        · exact Or.inr (entityLoop_mem_of_mem mt rest terms (Decidable.not_not.mp h'))
      · exact ih terms hlen e hrest hstop

/-- The case-sensitive duplicate check does not stop a second occurrence of
the same entity: with room below the cap it is inserted twice. -/
theorem entityLoop_double (mt : Nat) (e : String) (rest terms : List String)
    (hstop : strLower e ∉ STOP_WORDS) (hnot : e ∉ terms)
    (hlen : terms.length + 2 ≤ mt) :
    2 ≤ (entityLoop mt (e :: e :: rest) terms).count (quoteStr e) := by
  have hlc1 : (quoteStr e :: terms).length = terms.length + 1 := List.length_cons _ _
  have hb1 : ¬ mt ≤ (quoteStr e :: terms).length := by omega
  have hnot2 : e ∉ quoteStr e :: terms := by
    intro h
    rcases List.mem_cons.mp h with h' | h'
    · exact quoteStr_ne e h'
    · exact hnot h'
  rw [entityLoop_step_go mt e (e :: rest) terms ⟨hstop, hnot⟩ hb1]
  by_cases hb2 : mt ≤ (quoteStr e :: quoteStr e :: terms).length
  · rw [entityLoop_step_break mt e rest (quoteStr e :: terms) ⟨hstop, hnot2⟩ hb2]
    simp [List.count_cons]
  · rw [entityLoop_step_go mt e rest (quoteStr e :: terms) ⟨hstop, hnot2⟩ hb2]
    obtain ⟨qs, hq, -⟩ := entityLoop_shape mt rest (quoteStr e :: quoteStr e :: terms)
    rw [hq]
    have hsub : (quoteStr e :: quoteStr e :: terms).count (quoteStr e) ≤
        (qs ++ (quoteStr e :: quoteStr e :: terms)).count (quoteStr e) :=
      (List.sublist_append_right qs _).count_le _
    have h2 : 2 ≤ (quoteStr e :: quoteStr e :: terms).count (quoteStr e) := by
      simp [List.count_cons]
    omega

/-!
## Claim theorems: query construction (C7, C10)
-/

/-- C7. The entity step of `build_news_query`: detected entities (maximal
runs of consecutive capitalized words, per `findEntities`) whose lower-cased
form is not a stop word and which are not already in the term list are
inserted at the front wrapped in quote markers — the loop's additions are
exactly quoted detected entities placed in front of the existing terms,
insertion stops once the term count reaches `max_terms` (never exceeding it
when starting below), below the cap every eligible entity is inserted (or
was already present) — and for the title `"Elon Musk buys Twitter"` the
built query contains the quoted token `"Elon Musk"`. -/
theorem C7_entity_quoting (entities terms : List String) (mt : Nat) :
    (∃ qs : List String, entityLoop mt entities terms = qs ++ terms ∧
      ∀ q ∈ qs, ∃ e, e ∈ entities ∧ q = quoteStr e ∧ strLower e ∉ STOP_WORDS) ∧
    (terms.length < mt → (entityLoop mt entities terms).length ≤ mt) ∧
    ((entityLoop mt entities terms).length < mt →
      ∀ e ∈ entities, strLower e ∉ STOP_WORDS →
        quoteStr e ∈ entityLoop mt entities terms ∨ e ∈ entityLoop mt entities terms) ∧
    listContains (build_news_query { title := "Elon Musk buys Twitter" }).data
      (quoteStr "Elon Musk").data = true :=
  ⟨entityLoop_shape mt entities terms, entityLoop_length mt entities terms,
   entityLoop_complete mt entities terms, by decide⟩

/-- Witness for C7 at a concrete input: the single eligible entity `"Ab"`
is inserted (quoted) by the loop. -/
theorem C7_entity_quoting_witness :
    quoteStr "Ab" ∈ entityLoop 8 ["Ab"] [] ∨ "Ab" ∈ entityLoop 8 ["Ab"] [] :=
  (C7_entity_quoting ["Ab"] [] 8).2.2.1 (by decide) "Ab" (by decide) (by decide)

/-- Counterexample to C10 as stated: for the event titled
`"Alpha and Bravo and Charlie and Delta and Echoo"` (no tags), `"Delta"` is
a detected entity whose lower-cased form `"delta"` is among the title terms
of the final query, yet the quoted form `"Delta"` is *not* inserted and the
final query does not contain it: the loop hit `max_terms` (8) before
reaching that entity. The universal claim therefore fails without a
`max_terms` proviso. -/
theorem C10_counterexample :
    "Delta" ∈ findEntities (Event.title { title := "Alpha and Bravo and Charlie and Delta and Echoo" }) ∧
    "delta" ∈ build_news_query_terms { title := "Alpha and Bravo and Charlie and Delta and Echoo" } 8 ∧
    strLower "Delta" = "delta" ∧
    quoteStr "Delta" ∉ build_news_query_terms { title := "Alpha and Bravo and Charlie and Delta and Echoo" } 8 ∧
    listContains (build_news_query { title := "Alpha and Bravo and Charlie and Delta and Echoo" }).data
      (quoteStr "Delta").data = false := by
  decide

/-- C10 (amended). The duplicate check of the entity loop compares the
original-case, unquoted entity text against the collected terms, so a
lower-case title term equal to the lower-cased entity does not block the
insertion — provided the loop has not yet reached `max_terms` when the
entity is processed (here: the entity heads the detected list and the
title/tag terms number fewer than `max_terms`), the quoted entity is
inserted anyway and the final query contains both forms; and an identical
entity detected twice is inserted twice, subject to the same cap. -/
theorem C10_case_sensitive_duplicates (ev : Event) (mt : Nat) (e t : String)
    (rest : List String)
    (h1 : findEntities ev.title = e :: rest)
    (h2 : strLower e ∉ STOP_WORDS)
    (h3 : e ∉ tagLoop mt ev.tags ((extract_key_terms ev.title).take 5))
    (h4 : t ∈ tagLoop mt ev.tags ((extract_key_terms ev.title).take 5))
    (h5 : t = strLower e)
    (h6 : (tagLoop mt ev.tags ((extract_key_terms ev.title).take 5)).length < mt) :
    (quoteStr e ∈ build_news_query_terms ev mt ∧ t ∈ build_news_query_terms ev mt) ∧
    ∀ (e' : String) (rest' terms' : List String),
      strLower e' ∉ STOP_WORDS → e' ∉ terms' → terms'.length + 2 ≤ mt →
      2 ≤ (entityLoop mt (e' :: e' :: rest') terms').count (quoteStr e') := by
  constructor
  · have hbq : build_news_query_terms ev mt =
        (entityLoop mt (findEntities ev.title)
          (tagLoop mt ev.tags ((extract_key_terms ev.title).take 5))).take mt := rfl
    rw [hbq, h1]
    set terms0 := tagLoop mt ev.tags ((extract_key_terms ev.title).take 5) with ht0
    have hlc : (quoteStr e :: terms0).length = terms0.length + 1 := List.length_cons _ _
    by_cases hb : mt ≤ (quoteStr e :: terms0).length
    · rw [entityLoop_step_break mt e rest terms0 ⟨h2, h3⟩ hb]
      rw [List.take_of_length_le (by omega)]
      exact ⟨List.mem_cons_self _ _, List.mem_cons_of_mem _ h4⟩
    · rw [entityLoop_step_go mt e rest terms0 ⟨h2, h3⟩ hb]
      rw [List.take_of_length_le (entityLoop_length mt rest _ (by omega))]
      exact ⟨entityLoop_mem_of_mem mt rest _ (List.mem_cons_self _ _),
        entityLoop_mem_of_mem mt rest _ (List.mem_cons_of_mem _ h4)⟩
  · intro e' rest' terms' hs hn hl
    exact entityLoop_double mt e' rest' terms' hs hn hl

/-- Witness for C10 at the event titled `"Musk sells stock"`: the detected
entity `"Musk"` lower-cases to the title term `"musk"`, and the final query
terms contain both `"musk"` and the quoted `"Musk"`. -/
theorem C10_case_sensitive_duplicates_witness :
    quoteStr "Musk" ∈ build_news_query_terms { title := "Musk sells stock" } 8 ∧
    "musk" ∈ build_news_query_terms { title := "Musk sells stock" } 8 :=
  (C10_case_sensitive_duplicates { title := "Musk sells stock" } 8 "Musk" "musk" []
    (by decide) (by decide) (by decide) (by decide) (by decide) (by decide)).1

end NewsMatch
